import Mathlib

/-!
Shallow embedding of `src/index.mjs` from the `ast-function-extractor`
repository. The file contains two variants of one CST analysis engine:
`analyzeFunctions` (rich records: name, parameters, returnType, class,
call list) and `getFunctionDeclarations` (name/signature records driven
by an `insideFunction` flag). The external tree-sitter parser is out of
scope: the entry points here take an already-parsed tree.

A tree-sitter syntax node is modelled as a `Node`: a type tag, the raw
source text of the node, the optional field name under which the node is
attached to its parent (`childForFieldName` looks children up by it), and
the ordered list of children (anonymous keyword/punctuation children
included, as in tree-sitter's `children`). Source spans are never branched
on by the code and are not modelled. JavaScript property access on
`undefined` raises a `TypeError`; such accesses are modelled in the
`Except Unit` monad, where `Except.error ()` is an uncaught-so-far
exception. The `try/catch` in `extractFunctionInfo` maps an error to
`none` (the JS `return null`).
-/

/-- A tree-sitter CST node: type tag, verbatim source text, the field name
linking it to its parent (if any), and its children in order. -/
inductive Node : Type where
  | mk (type : String) (text : String) (field : Option String) (children : List Node)

namespace Node

def type : Node → String
  | .mk t _ _ _ => t

def text : Node → String
  | .mk _ s _ _ => s

def field : Node → Option String
  | .mk _ _ f _ => f

def children : Node → List Node
  | .mk _ _ _ cs => cs

@[simp] theorem type_mk (t s f cs) : (Node.mk t s f cs).type = t := rfl
@[simp] theorem text_mk (t s f cs) : (Node.mk t s f cs).text = s := rfl
@[simp] theorem field_mk (t s f cs) : (Node.mk t s f cs).field = f := rfl
@[simp] theorem children_mk (t s f cs) : (Node.mk t s f cs).children = cs := rfl

theorem sizeOf_children_lt (n : Node) : sizeOf n.children < sizeOf n := by
  cases n with
  | mk t s f cs => simp only [children_mk, mk.sizeOf_spec]; omega

theorem sizeOf_lt_of_mem_children {c n : Node} (h : c ∈ n.children) :
    sizeOf c < sizeOf n := by
  cases n with
  | mk t s f cs =>
    have := List.sizeOf_lt_of_mem h
    simp only [children_mk] at h
    simp only [mk.sizeOf_spec]
    have := List.sizeOf_lt_of_mem h
    omega

/-- Structural induction over a node and all members of its children list. -/
theorem induct (P : Node → Prop)
    (h : ∀ t s f cs, (∀ c ∈ cs, P c) → P (Node.mk t s f cs)) : ∀ n, P n := by
  intro n
  cases hn : n with
  | mk t s f cs =>
    refine h t s f cs (fun c hc => induct P h c)
termination_by n => sizeOf n
decreasing_by
  subst hn
  exact sizeOf_lt_of_mem_children hc

end Node

/-- Models JS `node.children.find(p)` (first matching child or `undefined`). -/
def findChild (n : Node) (p : Node → Bool) : Option Node :=
  n.children.find? p

/-- Models JS `node.children.find(p).text`: raises (monadically) when no
child matches, since `.text` on `undefined` throws a `TypeError`. -/
def findChildText (n : Node) (p : Node → Bool) : Except Unit String :=
  match n.children.find? p with
  | some c => .ok c.text
  | none => .error ()

/-! ## Variant 1: `analyzeFunctions` -/

/-- One output record of `analyzeFunctions`. The JS object gets a `class`
property only when `className` is truthy and a `call` property only when
the extracted list is non-empty; absent properties are `none` here. The
source's `class` key is a Lean keyword, rendered `className`. -/
structure FunctionInfo where
  name : String
  parameters : String
  returnType : String
  className : Option String
  call : Option (List String)
deriving DecidableEq, Repr

/-- The check `isNestedFunction` walks parent pointers upward from the candidate and
returns true iff some ancestor is a function-bearing node. The embedding
threads the candidate's ancestor type chain (nearest first) down the
traversal, which is exactly what the upward scan inspects. -/
def isNestedFunction (ancestors : List String) : Bool :=
  ancestors.any (fun t =>
    t == "function" || t == "method_definition" ||
    t == "arrow_function" || t == "function_declaration")

mutual
/-- The search `findReturnStatement`: depth-first, pre-order search for the first
`return_statement` node, the searched node itself included. -/
def findReturnStatement : Node → Option Node
  | n@(.mk t _ _ cs) =>
    if t = "return_statement" then some n
    else findReturnStatementList cs

/-- The `for child of node.children` loop of `findReturnStatement`:
return the first hit, left to right. -/
def findReturnStatementList : List Node → Option Node
  | [] => none
  | c :: rest =>
    match findReturnStatement c with
    | some result => some result
    | none => findReturnStatementList rest
end

/-- The arrow-body lookup of `determineReturnType`: the first child that
is a `statement_block` or an `expression`. -/
def arrowBodyLookup (n : Node) : Option Node :=
  findChild n (fun c => c.type == "statement_block" || c.type == "expression")

/-- The inferrer `determineReturnType`: async wins; then a non-block arrow body gives
`any`; then the first return statement's expression child decides. -/
def determineReturnType (node : Node) (isAsync : Bool) (isArrow : Bool) : String :=
  if isAsync then "Promise<void>"
  else
    let arrowShortCircuit :=
      if isArrow then
        match arrowBodyLookup node with
        | some body => body.type == "expression"
        | none => true
      else false
    if arrowShortCircuit then "any"
    else
      match findReturnStatement node with
      | some ret =>
        match ret.children.find? (fun c => !(c.type == "return")) with
        | some e =>
          if e.type = "number" then "number"
          else if e.type = "string" then "string"
          else "void"
        | none => "void"
      | none => "void"

/-- Models `classInstances.set(key, value)` of the JS `Map`: latest binding wins
on lookup (the map is only read through `has`/`get`, never iterated). -/
def mapSet (m : List (String × String)) (k v : String) : List (String × String) :=
  (k, v) :: m

/-- Models `classInstances.get(key)` and `.has(key)` via `Option`. -/
def mapGet (m : List (String × String)) (k : String) : Option String :=
  (m.find? (fun p => p.1 == k)).map (fun p => p.2)

/-- Models `calledFunctions.add(x)` of the JS `Set`: append iff absent, so the
list keeps first-occurrence insertion order, as `Array.from` reads it. -/
def setAdd (s : List String) (x : String) : List String :=
  if x ∈ s then s else s ++ [x]

/-- The callee-name computation of `traverseForCalls` on a
`call_expression`, given the callee `n.children[0]`: a member expression
is resolved through the alias map unless its object text is `console`;
`children[0].text` / `children[2].text` on the member expression throw
when those children are missing. -/
def resolveCallName (classInstances : List (String × String)) (callee : Node) :
    Except Unit String :=
  if callee.type = "member_expression" then do
    let object ← match callee.children with
      | c0 :: _ => Except.ok c0.text
      | [] => Except.error ()
    let property ← match callee.children with
      | _ :: _ :: c2 :: _ => Except.ok c2.text
      | _ => Except.error ()
    if object ≠ "console" then
      match mapGet classInstances object with
      | some cls => pure (cls ++ "." ++ property)
      | none => pure (object ++ "." ++ property)
    else
      pure callee.text
  else
    pure callee.text

/-- State of `traverseForCalls`: the insertion-ordered `calledFunctions`
set and the `classInstances` alias map. -/
abbrev CallState := List String × List (String × String)

/-- The per-node action of `traverseForCalls`, before recursing into the
children: on a `variable_declarator` with a `new_expression` initializer
it records a class-instance alias (the JS `?.text` never throws, and a
falsy empty class name is not stored); on a `call_expression` it adds the
resolved callee name unless that name is exactly `"console.log"`
(`n.children[0].text` throws when the call node has no children); any
other node leaves the state unchanged. -/
def callStep : Node → CallState → Except Unit CallState
  | n@(.mk ntype _ _ nchildren), (calledFunctions, classInstances) =>
    if ntype = "variable_declarator" then
      match findChild n (fun c => c.type == "identifier"),
            findChild n (fun c => c.type == "new_expression") with
      | some id, some init =>
        match (findChild init (fun c => c.type == "identifier")).map Node.text with
        | some className =>
          if className ≠ "" then
            pure (calledFunctions, mapSet classInstances id.text className)
          else
            pure (calledFunctions, classInstances)
        | none => pure (calledFunctions, classInstances)
      | _, _ => pure (calledFunctions, classInstances)
    else if ntype = "call_expression" then do
      let callee ← match nchildren with
        | c0 :: _ => Except.ok c0
        | [] => Except.error ()
      let functionName ← resolveCallName classInstances callee
      if functionName ≠ "console.log" then
        pure (setAdd calledFunctions functionName, classInstances)
      else
        pure (calledFunctions, classInstances)
    else
      pure (calledFunctions, classInstances)

mutual
/-- The walker `traverseForCalls`: the per-node `callStep` action, then all children
visited unconditionally (nested function bodies included). -/
def traverseForCalls : Node → CallState → Except Unit CallState
  | n@(.mk _ _ _ nchildren), st => do
    let st1 ← callStep n st
    traverseForCallsList nchildren st1

/-- Sequential fold of `traverseForCalls` over a child list. -/
def traverseForCallsList : List Node → CallState → Except Unit CallState
  | [], st => pure st
  | c :: rest, st => do
    let st' ← traverseForCalls c st
    traverseForCallsList rest st'
end

/-- The extractor `extractCalledFunctions`: run `traverseForCalls` from an empty set and
map, return `Array.from(calledFunctions)` (the insertion-ordered list).
The `className` parameter exists in the source but is only shadowed in
the body, never read. -/
def extractCalledFunctions (node : Node) (_className : Option String) :
    Except Unit (List String) := do
  let (calledFunctions, _) ← traverseForCalls node ([], [])
  pure calledFunctions

/-- JS truthiness of the optional class name: `if (className)` rejects
both `null` and the empty string. -/
def truthyOpt : Option String → Option String
  | some s => if s = "" then none else some s
  | none => none

/-- The tail of `extractFunctionInfo` once a candidate `functionNode`,
its `name` and `isArrow` are known: the nesting check, then parameter
text (`.find(...).text`, throwing when `formal_parameters` is absent),
async detection, return-type inference and call extraction, assembling
the record with its conditional `class` and `call` properties. -/
def finishCandidate (functionNode : Node) (name : String) (isArrow : Bool)
    (className : Option String) (ancestors : List String) :
    Except Unit (Option FunctionInfo) := do
  if isNestedFunction ancestors then
    pure none
  else do
    let parameters ← findChildText functionNode (fun c => c.type == "formal_parameters")
    let isAsync := functionNode.children.any (fun c => c.type == "async")
    let returnType := determineReturnType functionNode isAsync isArrow
    let calledFunctions ← extractCalledFunctions functionNode className
    pure (some
      { name := name
        parameters := parameters
        returnType := returnType
        className := truthyOpt className
        call := if calledFunctions.isEmpty then none else some calledFunctions })

/-- The `try` body of `extractFunctionInfo`: dispatch on the candidate's
node type, extract the function node and its name (name lookups of the
form `.find(...).text` throw when the child is missing), then finish.
`ancestors` is the candidate node's ancestor type chain, inspected by
`isNestedFunction` in place of the source's upward parent scan. -/
def extractFunctionInfoE (node : Node) (className : Option String)
    (ancestors : List String) : Except Unit (Option FunctionInfo) := do
  if node.type = "method_definition" then do
    let name ← findChildText node (fun c => c.type == "property_identifier")
    finishCandidate node name false className ancestors
  else if node.type = "function_declaration" then do
    let name ← findChildText node (fun c => c.type == "identifier")
    finishCandidate node name false className ancestors
  else if node.type = "lexical_declaration" ∨ node.type = "variable_declaration" then
    match findChild node (fun c => c.type == "variable_declarator") with
    | none => pure none
    | some declarator =>
      match findChild declarator
          (fun c => c.type == "arrow_function" || c.type == "function") with
      | none => pure none
      | some value => do
        let name ← findChildText declarator (fun c => c.type == "identifier")
        finishCandidate value name (value.type == "arrow_function") className ancestors
  else
    pure none

/-- The total `extractFunctionInfo` with its `catch`: an exception anywhere in the
body is logged and turned into `null`, so the function is total. -/
def extractFunctionInfo (node : Node) (className : Option String)
    (ancestors : List String) : Option FunctionInfo :=
  match extractFunctionInfoE node className ancestors with
  | .ok r => r
  | .error _ => none

/-- Traversal state of `analyzeFunctions`: the `functions` output list and
the mutable `currentClass` variable. -/
abbrev TravState := List FunctionInfo × Option String

/-- The `switch` of `traverse` (the per-node action before recursing): on
a `class_declaration` the current class is set from the identifier child
(`.find(...).text` — an uncaught throw when it is missing); on a
candidate type (`method_definition`, `function_declaration`,
`lexical_declaration`, `variable_declaration`) the record is extracted
and pushed when non-null; any other node leaves the state unchanged. -/
def traverseStep (node : Node) (ancestors : List String) (st : TravState) :
    Except Unit TravState := do
  let (functions, currentClass) := st
  if node.type = "class_declaration" then do
    let cname ← findChildText node (fun c => c.type == "identifier")
    pure (functions, some cname)
  else if node.type = "method_definition" ∨ node.type = "function_declaration" ∨
      node.type = "lexical_declaration" ∨ node.type = "variable_declaration" then
    match extractFunctionInfo node currentClass ancestors with
    | some func => pure (functions ++ [func], currentClass)
    | none => pure (functions, currentClass)
  else
    pure (functions, currentClass)

mutual
/-- The walker `traverse` of `analyzeFunctions`: run the `switch` (`traverseStep`),
visit all children, and reset `currentClass` to `null` when leaving a
`class_declaration`. `ancestors` is the type chain above `node`, extended
by `node.type` for its children. -/
def traverse : Node → List String → TravState → Except Unit TravState
  | node@(.mk ntype _ _ nchildren), ancestors, st => do
  let st1 ← traverseStep node ancestors st
  let st2 ← traverseList nchildren (ntype :: ancestors) st1
  if ntype = "class_declaration" then
    pure (st2.1, none)
  else
    pure st2

/-- Sequential fold of `traverse` over a child list. -/
def traverseList : List Node → List String → TravState → Except Unit TravState
  | [], _, st => pure st
  | c :: rest, ancestors, st => do
    let st' ← traverse c ancestors st
    traverseList rest ancestors st'
end

/-- The entry point `analyzeFunctions`, starting from the parsed root node (the parser is
external): traverse with no ancestors, empty output and no current class,
and return the collected `functions` list. -/
def analyzeFunctions (rootNode : Node) : Except Unit (List FunctionInfo) := do
  let (functions, _) ← traverse rootNode [] ([], none)
  pure functions

/-! ## Variant 2: `getFunctionDeclarations` -/

/-- One output record of `getFunctionDeclarations`: the node type and the
composed name/signature string. The source also copies the node's
`startPosition`/`endPosition` spans verbatim; spans are not modelled on
`Node` and are therefore omitted here (they are never branched on). -/
structure FunctionDeclaration where
  type : String
  name : String
deriving DecidableEq, Repr

/-- tree-sitter's `node.childForFieldName(name)`: the first child attached
under that field name. -/
def childForFieldName (n : Node) (fname : String) : Option Node :=
  n.children.find? (fun c => c.field == some fname)

/-- Models `` `${functionName}${parametersList.text}` `` where `parametersList`
may be `null` (then `.text` throws). -/
def signatureOf (functionName : String) (parametersList : Option Node) :
    Except Unit String :=
  match parametersList with
  | some p => .ok (functionName ++ p.text)
  | none => .error ()

mutual
/-- The walker `traverseTree` of `getFunctionDeclarations`: tracks `currentClass` as
a down-passed parameter (updated on `class_declaration`/`class` nodes with
a `name` field), and on a `function_declaration` / `method_definition` /
`arrow_function` node met with `insideFunction = false` computes the
name and signature (an arrow only when its parent is a
`variable_declarator`, read from the threaded `parent` node), pushes a
record when the name is truthy, and visits the children with
`insideFunction = true`; every other node just recurses with the flag
unchanged. The record's `name` is `signature || functionName`. -/
def traverseTree : Node → Option Node → Option String → Bool →
    Except Unit (List FunctionDeclaration)
  | node@(.mk ntype _ _ nchildren), parent, currentClass, insideFunction => do
  let currentClass :=
    if ntype = "class_declaration" ∨ ntype = "class" then
      match childForFieldName node "name" with
      | some nameNode => some nameNode.text
      | none => currentClass
    else currentClass
  if (ntype = "function_declaration" ∨ ntype = "method_definition" ∨
      ntype = "arrow_function") ∧ insideFunction = false then do
    let (functionName, signature) ←
      if ntype = "function_declaration" then
        match childForFieldName node "name" with
        | some nameNode => do
          let s ← signatureOf nameNode.text (childForFieldName node "parameters")
          pure (some nameNode.text, s)
        | none => pure ((none : Option String), "")
      else if ntype = "method_definition" then
        match childForFieldName node "name" with
        | some nameNode => do
          let base ← signatureOf nameNode.text (childForFieldName node "parameters")
          let s :=
            match currentClass with
            | some c => if c ≠ "" then c ++ "." ++ base else base
            | none => base
          pure (some nameNode.text, s)
        | none => pure ((none : Option String), "")
      else
        match parent with
        | some p =>
          if p.type = "variable_declarator" then
            match childForFieldName p "name" with
            | some nameNode => do
              let s ← signatureOf nameNode.text (childForFieldName node "parameters")
              pure (some nameNode.text, s)
            | none => pure ((none : Option String), "")
          else
            pure ((none : Option String), "")
        | none => pure ((none : Option String), "")
    let recs :=
      match functionName with
      | some fn =>
        if fn ≠ "" then
          [{ type := ntype, name := if signature ≠ "" then signature else fn }]
        else []
      | none => []
    let childRecs ← traverseTreeList nchildren (some node) currentClass true
    pure (recs ++ childRecs)
  else
    traverseTreeList nchildren (some node) currentClass insideFunction

/-- Sequential fold of `traverseTree` over a child list, concatenating the
records pushed beneath each child. -/
def traverseTreeList : List Node → Option Node → Option String → Bool →
    Except Unit (List FunctionDeclaration)
  | [], _, _, _ => pure []
  | c :: rest, parent, currentClass, insideFunction => do
    let rs ← traverseTree c parent currentClass insideFunction
    let rs' ← traverseTreeList rest parent currentClass insideFunction
    pure (rs ++ rs')
end

/-- The entry point `getFunctionDeclarations`, starting from the parsed root node:
`traverseTree(tree.rootNode)` with default `currentClass = null`,
`insideFunction = false` and no parent. -/
def getFunctionDeclarations (rootNode : Node) : Except Unit (List FunctionDeclaration) :=
  traverseTree rootNode none none false

/-! ## Concrete input trees -/

/-- Node without a field name. -/
def nd (t s : String) (cs : List Node) : Node := .mk t s none cs

/-- Node attached under a grammar field name. -/
def fd (t s fname : String) (cs : List Node) : Node := .mk t s (some fname) cs

/-- CST of
`async function hello() { const foo = () => 123; }` followed by
`const greet = (name) => { hello(); return 123; };`
in tree-sitter-javascript shape (anonymous keyword children included). -/
def scenarioTree : Node :=
  nd "program" "async function hello() { const foo = () => 123; } const greet = (name) => { hello(); return 123; };" [
    nd "function_declaration" "async function hello() { const foo = () => 123; }" [
      nd "async" "async" [],
      nd "function" "function" [],
      fd "identifier" "hello" "name" [],
      fd "formal_parameters" "()" "parameters" [nd "(" "(" [], nd ")" ")" []],
      fd "statement_block" "{ const foo = () => 123; }" "body" [
        nd "\x7b" "\x7b" [],
        nd "lexical_declaration" "const foo = () => 123;" [
          nd "const" "const" [],
          nd "variable_declarator" "foo = () => 123" [
            fd "identifier" "foo" "name" [],
            nd "=" "=" [],
            fd "arrow_function" "() => 123" "value" [
              fd "formal_parameters" "()" "parameters" [nd "(" "(" [], nd ")" ")" []],
              nd "=>" "=>" [],
              fd "number" "123" "body" []
            ]
          ],
          nd ";" ";" []
        ],
        nd "\x7d" "\x7d" []
      ]
    ],
    nd "lexical_declaration" "const greet = (name) => { hello(); return 123; };" [
      nd "const" "const" [],
      nd "variable_declarator" "greet = (name) => { hello(); return 123; }" [
        fd "identifier" "greet" "name" [],
        nd "=" "=" [],
        fd "arrow_function" "(name) => { hello(); return 123; }" "value" [
          fd "formal_parameters" "(name)" "parameters" [
            nd "(" "(" [], fd "identifier" "name" "pattern" [], nd ")" ")" []],
          nd "=>" "=>" [],
          fd "statement_block" "{ hello(); return 123; }" "body" [
            nd "\x7b" "\x7b" [],
            nd "expression_statement" "hello();" [
              nd "call_expression" "hello()" [
                fd "identifier" "hello" "function" [],
                fd "arguments" "()" "arguments" [nd "(" "(" [], nd ")" ")" []]
              ],
              nd ";" ";" []
            ],
            nd "return_statement" "return 123;" [
              nd "return" "return" [],
              nd "number" "123" [],
              nd ";" ";" []
            ],
            nd "\x7d" "\x7d" []
          ]
        ]
      ],
      nd ";" ";" []
    ]
  ]

/-- CST of `function f() { console.error(1); }`. -/
def consoleTree : Node :=
  nd "program" "function f() { console.error(1); }" [
    nd "function_declaration" "function f() { console.error(1); }" [
      nd "function" "function" [],
      fd "identifier" "f" "name" [],
      fd "formal_parameters" "()" "parameters" [nd "(" "(" [], nd ")" ")" []],
      fd "statement_block" "{ console.error(1); }" "body" [
        nd "\x7b" "\x7b" [],
        nd "expression_statement" "console.error(1);" [
          nd "call_expression" "console.error(1)" [
            fd "member_expression" "console.error" "function" [
              fd "identifier" "console" "object" [],
              nd "." "." [],
              fd "property_identifier" "error" "property" []
            ],
            fd "arguments" "(1)" "arguments" [
              nd "(" "(" [], nd "number" "1" [], nd ")" ")" []]
          ],
          nd ";" ";" []
        ],
        nd "\x7d" "\x7d" []
      ]
    ]
  ]

/-- CST of `class C { m() { class D {} } n() {} }`: a class declaration
nested (inside a method body) under another class declaration. -/
def nestedClassTree : Node :=
  nd "program" "class C { m() { class D {} } n() {} }" [
    nd "class_declaration" "class C { m() { class D {} } n() {} }" [
      nd "class" "class" [],
      fd "identifier" "C" "name" [],
      fd "class_body" "{ m() { class D {} } n() {} }" "body" [
        nd "\x7b" "\x7b" [],
        nd "method_definition" "m() { class D {} }" [
          fd "property_identifier" "m" "name" [],
          fd "formal_parameters" "()" "parameters" [nd "(" "(" [], nd ")" ")" []],
          fd "statement_block" "{ class D {} }" "body" [
            nd "\x7b" "\x7b" [],
            nd "class_declaration" "class D {}" [
              nd "class" "class" [],
              fd "identifier" "D" "name" [],
              fd "class_body" "{}" "body" [nd "\x7b" "\x7b" [], nd "\x7d" "\x7d" []]
            ],
            nd "\x7d" "\x7d" []
          ]
        ],
        nd "method_definition" "n() {}" [
          fd "property_identifier" "n" "name" [],
          fd "formal_parameters" "()" "parameters" [nd "(" "(" [], nd ")" ")" []],
          fd "statement_block" "{}" "body" [nd "\x7b" "\x7b" [], nd "\x7d" "\x7d" []]
        ],
        nd "\x7d" "\x7d" []
      ]
    ]
  ]

/-- A tree whose `class_declaration` node carries no `identifier` child
(a malformed / error-recovered class header). -/
def namelessClassTree : Node :=
  nd "program" "class" [
    nd "class_declaration" "class" [nd "class" "class" []]
  ]

/-- CST of the inner `function g() {}`. -/
def gFuncDecl : Node :=
  nd "function_declaration" "function g() {}" [
    nd "function" "function" [],
    fd "identifier" "g" "name" [],
    fd "formal_parameters" "()" "parameters" [nd "(" "(" [], nd ")" ")" []],
    fd "statement_block" "{}" "body" [nd "\x7b" "\x7b" [], nd "\x7d" "\x7d" []]
  ]

/-- CST of `const f = function () { function g() {} };`: a function
declaration nested in the body of a function expression (node type
`function`, the form used by the grammar version this code targets). -/
def funcExprNestTree : Node :=
  nd "program" "const f = function () { function g() {} };" [
    nd "lexical_declaration" "const f = function () { function g() {} };" [
      nd "const" "const" [],
      nd "variable_declarator" "f = function () { function g() {} }" [
        fd "identifier" "f" "name" [],
        nd "=" "=" [],
        fd "function" "function () { function g() {} }" "value" [
          nd "function" "function" [],
          fd "formal_parameters" "()" "parameters" [nd "(" "(" [], nd ")" ")" []],
          fd "statement_block" "{ function g() {} }" "body" [
            nd "\x7b" "\x7b" [],
            gFuncDecl,
            nd "\x7d" "\x7d" []
          ]
        ]
      ],
      nd ";" ";" []
    ]
  ]

/-- CST of `function t() { const c = new Foo(); c.bar(); other.baz(); }`. -/
def aliasTree : Node :=
  nd "function_declaration" "function t() { const c = new Foo(); c.bar(); other.baz(); }" [
    nd "function" "function" [],
    fd "identifier" "t" "name" [],
    fd "formal_parameters" "()" "parameters" [nd "(" "(" [], nd ")" ")" []],
    fd "statement_block" "{ const c = new Foo(); c.bar(); other.baz(); }" "body" [
      nd "\x7b" "\x7b" [],
      nd "lexical_declaration" "const c = new Foo();" [
        nd "const" "const" [],
        nd "variable_declarator" "c = new Foo()" [
          fd "identifier" "c" "name" [],
          nd "=" "=" [],
          fd "new_expression" "new Foo()" "value" [
            nd "new" "new" [],
            fd "identifier" "Foo" "constructor" [],
            fd "arguments" "()" "arguments" [nd "(" "(" [], nd ")" ")" []]
          ]
        ],
        nd ";" ";" []
      ],
      nd "expression_statement" "c.bar();" [
        nd "call_expression" "c.bar()" [
          fd "member_expression" "c.bar" "function" [
            fd "identifier" "c" "object" [],
            nd "." "." [],
            fd "property_identifier" "bar" "property" []
          ],
          fd "arguments" "()" "arguments" [nd "(" "(" [], nd ")" ")" []]
        ],
        nd ";" ";" []
      ],
      nd "expression_statement" "other.baz();" [
        nd "call_expression" "other.baz()" [
          fd "member_expression" "other.baz" "function" [
            fd "identifier" "other" "object" [],
            nd "." "." [],
            fd "property_identifier" "baz" "property" []
          ],
          fd "arguments" "()" "arguments" [nd "(" "(" [], nd ")" ")" []]
        ],
        nd ";" ";" []
      ],
      nd "\x7d" "\x7d" []
    ]
  ]

/-- CST pieces of `function f() { const g = () => { h(); }; }`: the only
call expression sits inside the nested arrow function's body. -/
def hCallExpr : Node :=
  nd "call_expression" "h()" [
    fd "identifier" "h" "function" [],
    fd "arguments" "()" "arguments" [nd "(" "(" [], nd ")" ")" []]
  ]

def hExprStmt : Node := nd "expression_statement" "h();" [hCallExpr, nd ";" ";" []]

def hArrowBlock : Node :=
  fd "statement_block" "{ h(); }" "body" [nd "\x7b" "\x7b" [], hExprStmt, nd "\x7d" "\x7d" []]

def hArrow : Node :=
  fd "arrow_function" "() => { h(); }" "value" [
    fd "formal_parameters" "()" "parameters" [nd "(" "(" [], nd ")" ")" []],
    nd "=>" "=>" [],
    hArrowBlock
  ]

def hDeclarator : Node :=
  nd "variable_declarator" "g = () => { h(); }" [
    fd "identifier" "g" "name" [], nd "=" "=" [], hArrow]

def hLexical : Node :=
  nd "lexical_declaration" "const g = () => { h(); };" [
    nd "const" "const" [], hDeclarator, nd ";" ";" []]

def hOuterBlock : Node :=
  fd "statement_block" "{ const g = () => { h(); }; }" "body" [
    nd "\x7b" "\x7b" [], hLexical, nd "\x7d" "\x7d" []]

/-- CST of `function f() { const g = () => { h(); }; }`. -/
def innerCallTree : Node :=
  nd "function_declaration" "function f() { const g = () => { h(); }; }" [
    nd "function" "function" [],
    fd "identifier" "f" "name" [],
    fd "formal_parameters" "()" "parameters" [nd "(" "(" [], nd ")" ")" []],
    hOuterBlock
  ]

/-- CST of the statement block `{ f(); g(); f(); }`: the same bare call
`f()` occurs twice around a call to `g()`. -/
def dupCallTree : Node :=
  nd "statement_block" "{ f(); g(); f(); }" [
    nd "\x7b" "\x7b" [],
    nd "expression_statement" "f();" [
      nd "call_expression" "f()" [
        fd "identifier" "f" "function" [],
        fd "arguments" "()" "arguments" [nd "(" "(" [], nd ")" ")" []]],
      nd ";" ";" []],
    nd "expression_statement" "g();" [
      nd "call_expression" "g()" [
        fd "identifier" "g" "function" [],
        fd "arguments" "()" "arguments" [nd "(" "(" [], nd ")" ")" []]],
      nd ";" ";" []],
    nd "expression_statement" "f();" [
      nd "call_expression" "f()" [
        fd "identifier" "f" "function" [],
        fd "arguments" "()" "arguments" [nd "(" "(" [], nd ")" ")" []]],
      nd ";" ";" []],
    nd "\x7d" "\x7d" []
  ]

/-- CST of `const f = x => x + 1;`: the arrow's single parameter is
written without parentheses, so the arrow node has an `identifier`
parameter child and no `formal_parameters` child. -/
def unparenArrowTree : Node :=
  nd "lexical_declaration" "const f = x => x + 1;" [
    nd "const" "const" [],
    nd "variable_declarator" "f = x => x + 1" [
      fd "identifier" "f" "name" [],
      nd "=" "=" [],
      fd "arrow_function" "x => x + 1" "value" [
        fd "identifier" "x" "parameter" [],
        nd "=>" "=>" [],
        fd "binary_expression" "x + 1" "body" [
          nd "identifier" "x" [], nd "+" "+" [], nd "number" "1" []
        ]
      ]
    ],
    nd ";" ";" []
  ]


/-! ## Specification-side companions and basic lemmas -/

/-- First-occurrence deduplication: fold the JS-`Set` insertion over a raw
name sequence. `firstOccur seq` keeps each name once, at the position of
its first occurrence in `seq`. -/
def firstOccur (seq : List String) : List String :=
  seq.foldl setAdd []

/-- Specification-side companion of `callStep`: the (0- or 1-element) raw
name sequence the step would record, with the updated alias map, instead
of the updated deduplicating set. -/
def callNameStep : Node → List (String × String) →
    Except Unit (List String × List (String × String))
  | n@(.mk ntype _ _ nchildren), classInstances =>
    if ntype = "variable_declarator" then
      match findChild n (fun c => c.type == "identifier"),
            findChild n (fun c => c.type == "new_expression") with
      | some id, some init =>
        match (findChild init (fun c => c.type == "identifier")).map Node.text with
        | some className =>
          if className ≠ "" then
            pure ([], mapSet classInstances id.text className)
          else
            pure ([], classInstances)
        | none => pure ([], classInstances)
      | _, _ => pure ([], classInstances)
    else if ntype = "call_expression" then do
      let callee ← match nchildren with
        | c0 :: _ => Except.ok c0
        | [] => Except.error ()
      let functionName ← resolveCallName classInstances callee
      if functionName ≠ "console.log" then
        pure ([functionName], classInstances)
      else
        pure ([], classInstances)
    else
      pure ([], classInstances)

mutual
/-- Specification-side companion of `traverseForCalls`: the raw pre-order
sequence of recorded call names, duplicates kept, threading the alias map
exactly as the source does. Used to state first-occurrence order. -/
def callNameSeq : Node → List (String × String) →
    Except Unit (List String × List (String × String))
  | n@(.mk _ _ _ nchildren), classInstances => do
    let (names1, m1) ← callNameStep n classInstances
    let (names2, m2) ← callNameSeqList nchildren m1
    pure (names1 ++ names2, m2)

/-- Sequential fold of `callNameSeq` over a child list. -/
def callNameSeqList : List Node → List (String × String) →
    Except Unit (List String × List (String × String))
  | [], m => pure ([], m)
  | c :: rest, m => do
    let (ns1, m1) ← callNameSeq c m
    let (ns2, m2) ← callNameSeqList rest m1
    pure (ns1 ++ ns2, m2)
end

theorem ebind_ok {α β : Type} (a : α) (f : α → Except Unit β) :
    (Except.ok a >>= f) = f a := rfl

theorem ebind_err {α β : Type} (f : α → Except Unit β) :
    ((Except.error () : Except Unit α) >>= f) = .error () := rfl

theorem mem_setAdd {s : List String} {x y : String} :
    x ∈ setAdd s y ↔ x ∈ s ∨ x = y := by
  unfold setAdd
  split
  · rename_i hy
    constructor
    · exact Or.inl
    · rintro (h | rfl) <;> assumption
  · simp

theorem setAdd_nodup {s : List String} (h : s.Nodup) (y : String) :
    (setAdd s y).Nodup := by
  unfold setAdd
  split
  · exact h
  · rename_i hy
    simpa [List.nodup_append] using ⟨h, fun hmem => hy hmem⟩

theorem mem_foldl_setAdd {seq : List String} {s : List String} {x : String} :
    x ∈ seq.foldl setAdd s ↔ x ∈ s ∨ x ∈ seq := by
  induction seq generalizing s with
  | nil => simp
  | cons y rest ih =>
    simp only [List.foldl_cons, ih, mem_setAdd, List.mem_cons]
    tauto

theorem foldl_setAdd_nodup {seq : List String} {s : List String} (h : s.Nodup) :
    (seq.foldl setAdd s).Nodup := by
  induction seq generalizing s with
  | nil => simpa
  | cons y rest ih => exact ih (setAdd_nodup h y)

/-- The step `callStep` refines `callNameStep`: the step's new set is the old set
with the step's raw names folded in, and the maps agree. -/
theorem callStep_eq_callNameStep (n : Node) (s : List String)
    (m : List (String × String)) :
    callStep n (s, m) =
      (callNameStep n m).map (fun p => (p.1.foldl setAdd s, p.2)) := by
  cases n with
  | mk ntype ntext nfield nchildren =>
    simp only [callStep, callNameStep]
    split
    · split <;> try rfl
      split <;> try rfl
      split <;> rfl
    · split
      · cases hc : nchildren with
        | nil => rfl
        | cons c0 rest =>
          simp only [ebind_ok]
          cases hr : resolveCallName m c0 with
          | error e => cases e; rfl
          | ok functionName =>
            simp only [ebind_ok]
            split <;> rfl
      · rfl

/-- The walker `traverseForCalls` refines `callNameSeq`: running the source traversal
from `(s, m)` is running the specification-side sequence collector from
`m` and folding the raw names into `s` in order. -/
theorem traverseForCalls_eq_callNameSeq :
    ∀ n : Node, ∀ s m, traverseForCalls n (s, m) =
      (callNameSeq n m).map (fun p => (p.1.foldl setAdd s, p.2)) := by
  intro n
  induction n using Node.induct with
  | h t str fld cs ih =>
    have listStep : ∀ cs' : List Node,
        (∀ c ∈ cs', ∀ s m, traverseForCalls c (s, m) =
          (callNameSeq c m).map (fun p => (p.1.foldl setAdd s, p.2))) →
        ∀ s m, traverseForCallsList cs' (s, m) =
          (callNameSeqList cs' m).map (fun p => (p.1.foldl setAdd s, p.2)) := by
      intro cs' hcs'
      induction cs' with
      | nil => intro s m; rfl
      | cons c rest iih =>
        intro s m
        simp only [traverseForCallsList, callNameSeqList]
        rw [hcs' c (List.mem_cons_self _ _)]
        cases hc : callNameSeq c m with
        | error e => cases e; rfl
        | ok p =>
          obtain ⟨ns1, m1⟩ := p
          simp only [Except.map, ebind_ok]
          rw [iih (fun c' hc' s'' m'' => hcs' c' (List.mem_cons_of_mem _ hc') s'' m'')]
          cases hrest : callNameSeqList rest m1 with
          | error e => cases e; rfl
          | ok q =>
            obtain ⟨ns2, m2⟩ := q
            simp only [Except.map, ebind_ok, pure, Except.pure, List.foldl_append]
    intro s m
    simp only [traverseForCalls, callNameSeq]
    rw [callStep_eq_callNameStep]
    cases hstep : callNameStep (Node.mk t str fld cs) m with
    | error e => cases e; rfl
    | ok p =>
      obtain ⟨ns1, m1⟩ := p
      simp only [Except.map, ebind_ok]
      rw [listStep cs ih (ns1.foldl setAdd s) m1]
      cases hrest : callNameSeqList cs m1 with
      | error e => cases e; rfl
      | ok q =>
        obtain ⟨ns2, m2⟩ := q
        simp only [Except.map, ebind_ok, pure, Except.pure, List.foldl_append]

/-- Shape of a successful `callNameStep`: it records nothing, or exactly
one name that is not the string `"console.log"`. -/
theorem callNameStep_shape {n : Node} {m : List (String × String)}
    {ns : List String} {m' : List (String × String)}
    (h : callNameStep n m = .ok (ns, m')) :
    ns = [] ∨ ∃ fn, ns = [fn] ∧ fn ≠ "console.log" := by
  cases n with
  | mk t s fld cs =>
    simp only [callNameStep] at h
    split at h
    · split at h
      · split at h
        · split at h
          · simp only [pure, Except.pure, Except.ok.injEq, Prod.mk.injEq] at h
            exact Or.inl h.1.symm
          · simp only [pure, Except.pure, Except.ok.injEq, Prod.mk.injEq] at h
            exact Or.inl h.1.symm
        · simp only [pure, Except.pure, Except.ok.injEq, Prod.mk.injEq] at h
          exact Or.inl h.1.symm
      · simp only [pure, Except.pure, Except.ok.injEq, Prod.mk.injEq] at h
        exact Or.inl h.1.symm
    · split at h
      · cases cs with
        | nil => exact absurd h (by simp [ebind_err])
        | cons c0 rest =>
          simp only [ebind_ok] at h
          cases hr : resolveCallName m c0 with
          | error e =>
            rw [hr] at h
            exact absurd h (by cases e; simp [ebind_err])
          | ok fn =>
            rw [hr] at h
            simp only [ebind_ok] at h
            split at h
            · simp only [pure, Except.pure, Except.ok.injEq, Prod.mk.injEq] at h
              exact Or.inr ⟨fn, h.1.symm, by assumption⟩
            · simp only [pure, Except.pure, Except.ok.injEq, Prod.mk.injEq] at h
              exact Or.inl h.1.symm
      · simp only [pure, Except.pure, Except.ok.injEq, Prod.mk.injEq] at h
        exact Or.inl h.1.symm

/-- Decomposition of a successful `callNameSeq` run into its step and its
children's runs. -/
theorem callNameSeq_ok_iff {t s fld cs m out} :
    callNameSeq (.mk t s fld cs) m = .ok out ↔
      ∃ ns1 m1 ns2 m2, callNameStep (.mk t s fld cs) m = .ok (ns1, m1) ∧
        callNameSeqList cs m1 = .ok (ns2, m2) ∧ out = (ns1 ++ ns2, m2) := by
  constructor
  · intro h
    simp only [callNameSeq] at h
    cases hstep : callNameStep (.mk t s fld cs) m with
    | error e => rw [hstep] at h; exact absurd h (by cases e; simp [ebind_err])
    | ok p =>
      obtain ⟨ns1, m1⟩ := p
      rw [hstep] at h
      simp only [ebind_ok] at h
      cases hrest : callNameSeqList cs m1 with
      | error e => rw [hrest] at h; exact absurd h (by cases e; simp [ebind_err])
      | ok q =>
        obtain ⟨ns2, m2⟩ := q
        rw [hrest] at h
        simp only [ebind_ok, pure, Except.pure, Except.ok.injEq] at h
        exact ⟨ns1, m1, ns2, m2, rfl, hrest, h.symm⟩
  · rintro ⟨ns1, m1, ns2, m2, h1, h2, rfl⟩
    simp only [callNameSeq, h1, ebind_ok, h2]
    rfl

/-- Decomposition of a successful `callNameSeqList` run on a cons cell. -/
theorem callNameSeqList_cons_ok_iff {c : Node} {rest : List Node} {m out} :
    callNameSeqList (c :: rest) m = .ok out ↔
      ∃ ns1 m1 ns2 m2, callNameSeq c m = .ok (ns1, m1) ∧
        callNameSeqList rest m1 = .ok (ns2, m2) ∧ out = (ns1 ++ ns2, m2) := by
  constructor
  · intro h
    simp only [callNameSeqList] at h
    cases hc : callNameSeq c m with
    | error e => rw [hc] at h; exact absurd h (by cases e; simp [ebind_err])
    | ok p =>
      obtain ⟨ns1, m1⟩ := p
      rw [hc] at h
      simp only [ebind_ok] at h
      cases hrest : callNameSeqList rest m1 with
      | error e => rw [hrest] at h; exact absurd h (by cases e; simp [ebind_err])
      | ok q =>
        obtain ⟨ns2, m2⟩ := q
        rw [hrest] at h
        simp only [ebind_ok, pure, Except.pure, Except.ok.injEq] at h
        exact ⟨ns1, m1, ns2, m2, rfl, hrest, h.symm⟩
  · rintro ⟨ns1, m1, ns2, m2, h1, h2, rfl⟩
    simp only [callNameSeqList, h1, ebind_ok, h2]
    rfl

/-- No successful run of `callNameSeq` ever records `"console.log"`. -/
theorem callNameSeq_no_console_log :
    ∀ n : Node, ∀ m ns m', callNameSeq n m = .ok (ns, m') →
      "console.log" ∉ ns := by
  intro n
  induction n using Node.induct with
  | h t s fld cs ih =>
    have listStep : ∀ cs' : List Node,
        (∀ c ∈ cs', ∀ m ns m', callNameSeq c m = .ok (ns, m') →
          "console.log" ∉ ns) →
        ∀ m ns m', callNameSeqList cs' m = .ok (ns, m') → "console.log" ∉ ns := by
      intro cs' hcs'
      induction cs' with
      | nil =>
        intro m ns m' h
        simp only [callNameSeqList, pure, Except.pure, Except.ok.injEq,
          Prod.mk.injEq] at h
        simp [← h.1]
      | cons c rest iih =>
        intro m ns m' h
        rw [callNameSeqList_cons_ok_iff] at h
        obtain ⟨ns1, m1, ns2, m2, h1, h2, hout⟩ := h
        have hns : ns = ns1 ++ ns2 := congrArg Prod.fst hout
        subst hns
        simp only [List.mem_append]
        rintro (hmem | hmem)
        · exact hcs' c (List.mem_cons_self _ _) m ns1 m1 h1 hmem
        · exact iih (fun c' hc' => hcs' c' (List.mem_cons_of_mem _ hc')) m1 ns2 m2 h2 hmem
    intro m ns m' h
    rw [callNameSeq_ok_iff] at h
    obtain ⟨ns1, m1, ns2, m2, h1, h2, hout⟩ := h
    have hns : ns = ns1 ++ ns2 := congrArg Prod.fst hout
    subst hns
    simp only [List.mem_append]
    rintro (hmem | hmem)
    · rcases callNameStep_shape h1 with rfl | ⟨fn, rfl, hfn⟩
      · simp at hmem
      · simp at hmem
        exact hfn hmem.symm
    · exact listStep cs ih m1 ns2 m2 h2 hmem

/-- A `call_expression` whose callee (`children[0]`) is not a member
expression and has text `f` occurs somewhere in the subtree. -/
inductive BareCallOccurs (f : String) : Node → Prop where
  | here (s : String) (fld : Option String) (c0 : Node) (rest : List Node) :
      c0.type ≠ "member_expression" → c0.text = f →
      BareCallOccurs f (.mk "call_expression" s fld (c0 :: rest))
  | child (n c : Node) : c ∈ n.children → BareCallOccurs f c →
      BareCallOccurs f n

/-- A bare call to `f` anywhere in the subtree (nested function bodies
included) puts `f` into every successful raw call-name sequence, provided
`f` is not the filtered string `"console.log"`. -/
theorem callNameSeq_of_bareCallOccurs {f : String} :
    ∀ n : Node, BareCallOccurs f n → f ≠ "console.log" →
      ∀ m ns m', callNameSeq n m = .ok (ns, m') → f ∈ ns := by
  intro n hocc hf
  induction hocc with
  | here s fld c0 rest hc0 htext =>
    intro m ns m' h
    rw [callNameSeq_ok_iff] at h
    obtain ⟨ns1, m1, ns2, m2, h1, h2, hout⟩ := h
    have hns : ns = ns1 ++ ns2 := congrArg Prod.fst hout
    subst hns
    have hstep : callNameStep (.mk "call_expression" s fld (c0 :: rest)) m =
        .ok ([f], m) := by
      simp only [callNameStep]
      simp only [ite_true, ite_false, ebind_ok]
      rw [show resolveCallName m c0 = .ok f from by
        simp only [resolveCallName, if_neg hc0, htext]; rfl]
      simp only [ebind_ok, if_pos hf]
      rfl
    rw [hstep] at h1
    simp only [Except.ok.injEq, Prod.mk.injEq] at h1
    simp [← h1.1]
  | child n c hmem hsub ih =>
    intro m ns m' h
    cases n with
    | mk t s fld cs =>
      rw [callNameSeq_ok_iff] at h
      obtain ⟨ns1, m1, ns2, m2, h1, h2, hout⟩ := h
      have hns : ns = ns1 ++ ns2 := congrArg Prod.fst hout
      subst hns
      simp only [Node.children_mk] at hmem
      have inList : ∀ cs' : List Node, c ∈ cs' → ∀ mm nns mm',
          callNameSeqList cs' mm = .ok (nns, mm') → f ∈ nns := by
        intro cs'
        induction cs' with
        | nil => intro hmem'; cases hmem'
        | cons d rest iih =>
          intro hmem' mm nns mm' hrun
          rw [callNameSeqList_cons_ok_iff] at hrun
          obtain ⟨as1, am1, as2, am2, g1, g2, gout⟩ := hrun
          have hnns : nns = as1 ++ as2 := congrArg Prod.fst gout
          subst hnns
          rcases List.mem_cons.mp hmem' with rfl | hmem''
          · exact List.mem_append_left _ (ih mm as1 am1 g1)
          · exact List.mem_append_right _ (iih hmem'' am1 as2 am2 g2)
      exact List.mem_append_right _ (inList cs hmem m1 ns2 m2 h2)

/-- Unfolding of a successful `extractCalledFunctions` run. -/
theorem extractCalledFunctions_ok_iff {node : Node} {cc : Option String}
    {l : List String} :
    extractCalledFunctions node cc = .ok l ↔
      ∃ m', traverseForCalls node ([], []) = .ok (l, m') := by
  unfold extractCalledFunctions
  cases h : traverseForCalls node ([], []) with
  | error e =>
    cases e
    simp [ebind_err]
  | ok p =>
    obtain ⟨s, m'⟩ := p
    simp only [ebind_ok, pure, Except.pure, Except.ok.injEq, Prod.mk.injEq]
    constructor
    · rintro rfl; exact ⟨m', rfl, rfl⟩
    · rintro ⟨m'', hm⟩
      exact hm.1

/-- A successful `extractCalledFunctions` is the first-occurrence fold of
the specification-side raw sequence. -/
theorem extractCalledFunctions_eq_firstOccur {node : Node} {cc : Option String}
    {l : List String} (h : extractCalledFunctions node cc = .ok l) :
    ∃ seq m', callNameSeq node [] = .ok (seq, m') ∧ l = firstOccur seq := by
  rw [extractCalledFunctions_ok_iff] at h
  obtain ⟨m', hrun⟩ := h
  rw [traverseForCalls_eq_callNameSeq] at hrun
  cases hseq : callNameSeq node [] with
  | error e => rw [hseq] at hrun; cases e; exact absurd hrun (by simp [Except.map])
  | ok p =>
    obtain ⟨seq, m2⟩ := p
    rw [hseq] at hrun
    simp only [Except.map, Except.ok.injEq, Prod.mk.injEq] at hrun
    exact ⟨seq, m2, rfl, hrun.1.symm⟩


/-! ## Claim theorems -/

/-- C2 (counterexample): the claim says no `console.*` entry is ever
recorded, but on `function f() { console.error(1); }` the record's
calls list is exactly `["console.error"]`: only the resolution through
the alias table is skipped for object `console`; the recorded name is the
raw member text, and only the exact string `"console.log"` is filtered. -/
theorem console_error_is_recorded :
    analyzeFunctions consoleTree = .ok [
      { name := "f", parameters := "()", returnType := "void",
        className := none, call := some ["console.error"] }] := rfl

/-- C2 (amended): no successful extraction ever records the exact string
`"console.log"` (other `console.*` member calls ARE recorded literally,
as the counterexample shows). -/
theorem console_filter_only_literal_log (node : Node) (className : Option String)
    (l : List String) (h : extractCalledFunctions node className = .ok l) :
    "console.log" ∉ l := by
  obtain ⟨seq, m', hseq, hl⟩ := extractCalledFunctions_eq_firstOccur h
  subst hl
  intro hmem
  rcases mem_foldl_setAdd.mp hmem with h0 | hseqmem
  · simp at h0
  · exact callNameSeq_no_console_log node [] seq m' hseq hseqmem

/-- Witness for C2's amended theorem at `aliasTree`. -/
theorem console_filter_only_literal_log_witness :
    extractCalledFunctions aliasTree none = .ok ["Foo.bar", "other.baz"] ∧
      "console.log" ∉ ["Foo.bar", "other.baz"] :=
  ⟨rfl, console_filter_only_literal_log aliasTree none _ rfl⟩

/-- C6: a successful calls list is duplicate-free and equals the
first-occurrence fold of the raw pre-order call-name sequence (the
specification-side `callNameSeq`), so each resolved name appears exactly
once, at the position of its first occurrence during the pre-order body
traversal. -/
theorem calls_dedup_first_occurrence (node : Node) (className : Option String)
    (l : List String) (h : extractCalledFunctions node className = .ok l) :
    l.Nodup ∧ ∃ seq m', callNameSeq node [] = .ok (seq, m') ∧
      l = firstOccur seq ∧ (∀ x, x ∈ l ↔ x ∈ seq) := by
  obtain ⟨seq, m', hseq, hl⟩ := extractCalledFunctions_eq_firstOccur h
  subst hl
  refine ⟨foldl_setAdd_nodup List.nodup_nil, seq, m', hseq, rfl, ?_⟩
  intro x
  unfold firstOccur
  rw [mem_foldl_setAdd]
  simp

/-- Witness for C6 at `dupCallTree` (`{ f(); g(); f(); }`): the raw
sequence is `["f", "g", "f"]` and the extracted list is `["f", "g"]`. -/
theorem calls_dedup_first_occurrence_witness :
    extractCalledFunctions dupCallTree none = .ok ["f", "g"] ∧
      (["f", "g"].Nodup ∧ ∃ seq m', callNameSeq dupCallTree [] = .ok (seq, m') ∧
        ["f", "g"] = firstOccur seq ∧ (∀ x, x ∈ ["f", "g"] ↔ x ∈ seq)) :=
  ⟨rfl, calls_dedup_first_occurrence dupCallTree none _ rfl⟩

/-- C9: `extractCalledFunctions` traverses the entire subtree of the
accepted function, so a bare (non-member) call expression occurring
anywhere in it — nested inner function bodies included — is attributed to
the enclosing function's calls list, unless the name is the filtered
`"console.log"`. -/
theorem nested_calls_attributed (node : Node) (className : Option String)
    (l : List String) (f : String)
    (h : extractCalledFunctions node className = .ok l)
    (hocc : BareCallOccurs f node) (hf : f ≠ "console.log") : f ∈ l := by
  obtain ⟨seq, m', hseq, hl⟩ := extractCalledFunctions_eq_firstOccur h
  subst hl
  have hmem := callNameSeq_of_bareCallOccurs node hocc hf [] seq m' hseq
  unfold firstOccur
  exact mem_foldl_setAdd.mpr (Or.inr hmem)

/-- Witness for C9 at `innerCallTree`: the call `h()` inside the nested
arrow body is attributed to the outer `f`'s calls list. -/
theorem nested_calls_attributed_witness :
    extractCalledFunctions innerCallTree none = .ok ["h"] ∧ "h" ∈ ["h"] :=
  ⟨rfl,
    nested_calls_attributed innerCallTree none ["h"] "h" rfl
      (.child _ hOuterBlock (.tail _ (.tail _ (.tail _ (.head _))))
        (.child _ hLexical (.tail _ (.head _))
          (.child _ hDeclarator (.tail _ (.head _))
            (.child _ hArrow (.tail _ (.tail _ (.head _)))
              (.child _ hArrowBlock (.tail _ (.tail _ (.head _)))
                (.child _ hExprStmt (.tail _ (.head _))
                  (.child _ hCallExpr (.head _)
                    (.here "h()" none _ _ (by simp [fd]) rfl))))))))
      (by simp)⟩

/-- C8: on the two-declaration input, `analyzeFunctions` yields exactly
two top-level records: `hello` with returnType `Promise<void>` and no
`call` property (its inner `foo` is excluded), and `greet` with
returnType `number` and calls `["hello"]`. -/
theorem end_to_end_scenario :
    analyzeFunctions scenarioTree = .ok [
      { name := "hello", parameters := "()", returnType := "Promise<void>",
        className := none, call := none },
      { name := "greet", parameters := "(name)", returnType := "number",
        className := none, call := some ["hello"] }] := rfl

/-- Control reaches the return-statement scan of `determineReturnType`:
either not an arrow, or an arrow whose body lookup found a statement
block. -/
def fallsToReturnScan (n : Node) (isArrow : Bool) : Prop :=
  isArrow = false ∨
    ∃ b, arrowBodyLookup n = some b ∧ b.type = "statement_block"

/-- C3: the return-type decision table, in precedence order. An async
function always yields `Promise<void>` (the quantifier covers functions
containing `return 5`); otherwise an arrow function whose body lookup
finds no statement block (a single-expression body) yields `any`;
otherwise the first return statement found by the depth-first search
decides: a `number` child yields `number`, a `string` child yields
`string`, and every other case — a return of any other shape or no
return statement at all — yields `void`. -/
theorem returnType_decision_table (n : Node) (isArrow : Bool) :
    (determineReturnType n true isArrow = "Promise<void>")
    ∧ ((arrowBodyLookup n = none ∨
          (∃ b, arrowBodyLookup n = some b ∧ b.type = "expression")) →
        determineReturnType n false true = "any")
    ∧ (fallsToReturnScan n isArrow →
        (findReturnStatement n = none → determineReturnType n false isArrow = "void")
        ∧ (∀ ret, findReturnStatement n = some ret →
            ((ret.children.find? (fun c => !(c.type == "return"))) = none →
              determineReturnType n false isArrow = "void")
            ∧ (∀ e, (ret.children.find? (fun c => !(c.type == "return"))) = some e →
                determineReturnType n false isArrow =
                  if e.type = "number" then "number"
                  else if e.type = "string" then "string"
                  else "void"))) := by
  refine ⟨by simp [determineReturnType], ?_, ?_⟩
  · rintro (h | ⟨b, hb, hbe⟩)
    · simp [determineReturnType, h]
    · simp [determineReturnType, hb, hbe]
  · intro hfall
    have harrow : (if isArrow then
        match arrowBodyLookup n with
        | some body => body.type == "expression"
        | none => true
      else false) = false := by
      rcases hfall with h | ⟨b, hb, hbe⟩
      · simp [h]
      · cases isArrow <;> simp [hb, hbe]
    refine ⟨?_, ?_⟩
    · intro hr; simp [determineReturnType, harrow, hr]
    · intro ret hret
      refine ⟨fun hf => ?_, fun e he => ?_⟩
      · simp [determineReturnType, harrow, hret, hf]
      · simp [determineReturnType, harrow, hret, he]

/-- CST of the arrow function `() => { return 5; }`. -/
def returnFiveArrow : Node :=
  nd "arrow_function" "() => { return 5; }" [
    fd "formal_parameters" "()" "parameters" [nd "(" "(" [], nd ")" ")" []],
    nd "=>" "=>" [],
    fd "statement_block" "{ return 5; }" "body" [
      nd "\x7b" "\x7b" [],
      nd "return_statement" "return 5;" [
        nd "return" "return" [], nd "number" "5" [], nd ";" ";" []],
      nd "\x7d" "\x7d" []
    ]
  ]

/-- CST of the arrow function `() => 123` (single-expression body). -/
def exprBodyArrow : Node :=
  nd "arrow_function" "() => 123" [
    fd "formal_parameters" "()" "parameters" [nd "(" "(" [], nd ")" ")" []],
    nd "=>" "=>" [],
    fd "number" "123" "body" []
  ]

/-- Witness for C3: on `() => { return 5; }` the async flag wins with
`Promise<void>` even though the body returns `5`; without it the first
return statement's number child gives `number`; on `() => 123` the
expression body gives `any`. -/
theorem returnType_decision_table_witness :
    determineReturnType returnFiveArrow true true = "Promise<void>" ∧
    determineReturnType returnFiveArrow false true = "number" ∧
    determineReturnType exprBodyArrow false true = "any" := by
  have h := returnType_decision_table returnFiveArrow true
  refine ⟨h.1, ?_, ?_⟩
  · have h3 := h.2.2 (Or.inr ⟨_, rfl, rfl⟩)
    have h4 := (h3.2 _ rfl).2 _ rfl
    simpa using h4
  · exact (returnType_decision_table exprBodyArrow true).2.1 (Or.inl rfl)

/-- C4: member-call resolution. For a member-expression callee
`object.property` whose object text is not `console`: if the object is a
known alias the recorded name is `ResolvedClass.property`, otherwise it
is the literal `object.property`; and on the concrete body
`{ const c = new Foo(); c.bar(); other.baz(); }` the extracted calls are
`["Foo.bar", "other.baz"]` — the alias table built from the constructor
initializer resolves `c.bar()` to `Foo.bar`, not `c.bar`. -/
theorem alias_resolution (m : List (String × String)) (s : String)
    (fld : Option String) (o dot p : Node) (rest : List Node)
    (ho : o.text ≠ "console") :
    (∀ cls, mapGet m o.text = some cls →
      resolveCallName m (.mk "member_expression" s fld (o :: dot :: p :: rest)) =
        .ok (cls ++ "." ++ p.text))
    ∧ (mapGet m o.text = none →
      resolveCallName m (.mk "member_expression" s fld (o :: dot :: p :: rest)) =
        .ok (o.text ++ "." ++ p.text))
    ∧ extractCalledFunctions aliasTree none = .ok ["Foo.bar", "other.baz"] := by
  refine ⟨?_, ?_, rfl⟩
  · intro cls hcls
    simp only [resolveCallName, Node.type_mk, Node.children_mk, ebind_ok,
      if_pos rfl, hcls, ho]
    simp [hcls, ho]
    rfl
  · intro hnone
    simp only [resolveCallName, Node.type_mk, Node.children_mk, ebind_ok,
      if_pos rfl, hnone, ho]
    simp [hnone, ho]
    rfl

/-- Witness for C4: with the alias map `{c ↦ Foo}`, `c.bar` resolves to
`Foo.bar` and the unknown `other.baz` stays literal. -/
theorem alias_resolution_witness :
    resolveCallName [("c", "Foo")] (.mk "member_expression" "c.bar" none
      [nd "identifier" "c" [], nd "." "." [], nd "property_identifier" "bar" []]) =
      .ok "Foo.bar" ∧
    resolveCallName [("c", "Foo")] (.mk "member_expression" "other.baz" none
      [nd "identifier" "other" [], nd "." "." [], nd "property_identifier" "baz" []]) =
      .ok "other.baz" ∧
    extractCalledFunctions aliasTree none = .ok ["Foo.bar", "other.baz"] := by
  have h1 := alias_resolution [("c", "Foo")] "c.bar" none
    (nd "identifier" "c" []) (nd "." "." []) (nd "property_identifier" "bar" []) []
    (by simp [nd])
  have h2 := alias_resolution [("c", "Foo")] "other.baz" none
    (nd "identifier" "other" []) (nd "." "." []) (nd "property_identifier" "baz" []) []
    (by simp [nd])
  exact ⟨h1.1 "Foo" rfl, h2.2.1 rfl, h1.2.2⟩

/-- C10: a lexical declaration binding a named arrow function whose arrow
node has no `formal_parameters` child (a single unparenthesized
parameter) produces no record: the parameter-text lookup throws inside
the `try` body (the monadic run errors) and the `catch` silently drops
the candidate instead of emitting a record without parameters. -/
theorem unparenthesized_arrow_dropped (node declarator value idNode : Node)
    (className : Option String) (ancestors : List String)
    (htype : node.type = "lexical_declaration")
    (hdecl : findChild node (fun c => c.type == "variable_declarator") = some declarator)
    (hval : findChild declarator
      (fun c => c.type == "arrow_function" || c.type == "function") = some value)
    (hid : findChild declarator (fun c => c.type == "identifier") = some idNode)
    (hnotnested : isNestedFunction ancestors = false)
    (hnoparams : findChild value (fun c => c.type == "formal_parameters") = none) :
    extractFunctionInfoE node className ancestors = .error () ∧
    extractFunctionInfo node className ancestors = none := by
  have hE : extractFunctionInfoE node className ancestors = .error () := by
    simp only [extractFunctionInfoE, htype]
    rw [if_neg (by simp), if_neg (by simp), if_pos (Or.inl trivial)]
    simp only [hdecl]
    simp only [hval]
    have hidtext : findChildText declarator (fun c => c.type == "identifier") =
        .ok idNode.text := by
      simp only [findChildText, findChild] at hid ⊢
      rw [hid]
    rw [hidtext]
    simp only [ebind_ok]
    simp only [finishCandidate, hnotnested]
    have hpar : findChildText value (fun c => c.type == "formal_parameters") =
        .error () := by
      simp only [findChildText, findChild] at hnoparams ⊢
      rw [hnoparams]
    simp [hpar, ebind_err]
  exact ⟨hE, by simp only [extractFunctionInfo, hE]⟩

/-- Witness for C10 at `const f = x => x + 1;` under a `program` parent. -/
theorem unparenthesized_arrow_dropped_witness :
    extractFunctionInfoE unparenArrowTree none ["program"] = .error () ∧
    extractFunctionInfo unparenArrowTree none ["program"] = none :=
  unparenthesized_arrow_dropped unparenArrowTree _ _ _ none ["program"]
    rfl rfl rfl rfl rfl rfl

/-- A nested candidate yields `ok none` or throws inside the `try` body:
every dispatch branch of `extractFunctionInfoE` either returns `null`
early, throws on a missing name, or reaches the `isNestedFunction` check
and returns `null` there. -/
theorem extractFunctionInfoE_nested (node : Node) (cc : Option String)
    (anc : List String) (h : isNestedFunction anc = true) :
    extractFunctionInfoE node cc anc = .ok none ∨
    extractFunctionInfoE node cc anc = .error () := by
  have hfin : ∀ fn name arr, finishCandidate fn name arr cc anc = .ok none := by
    intro fn name arr
    simp only [finishCandidate, h]
    rfl
  simp only [extractFunctionInfoE]
  split
  · cases hf : findChildText node (fun c => c.type == "property_identifier") with
    | error e => cases e; right; simp [ebind_err]
    | ok nm => left; simp [ebind_ok, hfin]
  · split
    · cases hf : findChildText node (fun c => c.type == "identifier") with
      | error e => cases e; right; simp [ebind_err]
      | ok nm => left; simp [ebind_ok, hfin]
    · split
      · split
        · left; rfl
        · split
          · left; rfl
          · cases hf : findChildText _ (fun c => c.type == "identifier") with
            | error e => cases e; right; simp [ebind_err]
            | ok nm => left; simp [ebind_ok, hfin]
      · left; rfl

/-- C1 (amended): nesting exclusion as the code implements it. In
`analyzeFunctions`, a candidate whose ancestor chain contains any of
`function` (a function expression), `method_definition`,
`arrow_function` or `function_declaration` is never emitted. In
`getFunctionDeclarations`, a subtree entered with `insideFunction = true`
(below an accepted `function_declaration` / `method_definition` /
`arrow_function`) emits nothing — but nothing marks the inside of a
function-expression (`function`) node, which is what the counterexample
exploits. -/
theorem nesting_exclusion :
    (∀ node className ancestors, isNestedFunction ancestors = true →
      extractFunctionInfo node className ancestors = none)
    ∧ (∀ node parent currentClass,
        traverseTree node parent currentClass true = .ok []) := by
  constructor
  · intro node className ancestors h
    rcases extractFunctionInfoE_nested node className ancestors h with hE | hE <;>
      simp [extractFunctionInfo, hE]
  · intro node
    induction node using Node.induct with
    | h t s fld cs ih =>
      have listpart : ∀ cs' : List Node,
          (∀ c ∈ cs', ∀ p k, traverseTree c p k true = .ok []) →
          ∀ p k, traverseTreeList cs' p k true = .ok [] := by
        intro cs' hcs'
        induction cs' with
        | nil => intro p k; rfl
        | cons c rest iih =>
          intro p k
          simp only [traverseTreeList, hcs' c (List.mem_cons_self _ _), ebind_ok]
          simp only [iih (fun c' hc' => hcs' c' (List.mem_cons_of_mem _ hc')), ebind_ok]
          rfl
      intro parent currentClass
      simp only [traverseTree]
      rw [if_neg (by simp)]
      exact listpart cs ih _ _

/-- C1 (counterexample): on `const f = function () { function g() {} };`
— `g` is declared lexically inside the body of a function expression —
`getFunctionDeclarations` DOES emit a record for `g`, while
`analyzeFunctions` suppresses it (its upward scan includes the
`function` kind). -/
theorem nesting_exclusion_counterexample :
    getFunctionDeclarations funcExprNestTree =
      .ok [{ type := "function_declaration", name := "g()" }] ∧
    analyzeFunctions funcExprNestTree = .ok [
      { name := "f", parameters := "()", returnType := "void",
        className := none, call := none }] := ⟨rfl, rfl⟩

/-- Witness for C1's amended theorem: a candidate below a `function`
ancestor is dropped by `analyzeFunctions`, and variant 2 emits nothing
from a subtree entered with `insideFunction = true`. -/
theorem nesting_exclusion_witness :
    isNestedFunction ["statement_block", "function",
      "variable_declarator", "lexical_declaration", "program"] = true ∧
    extractFunctionInfo gFuncDecl none ["statement_block", "function",
      "variable_declarator", "lexical_declaration", "program"] = none ∧
    traverseTree gFuncDecl none none true = .ok [] :=
  ⟨rfl, nesting_exclusion.1 _ _ _ rfl, nesting_exclusion.2 _ _ _⟩

mutual
/-- No `class_declaration` node anywhere in the subtree. -/
def classFree : Node → Bool
  | .mk t _ _ cs => !(t == "class_declaration") && classFreeList cs

/-- Conjunction of `classFree` over every member of a list. -/
def classFreeList : List Node → Bool
  | [] => true
  | c :: rest => classFree c && classFreeList rest
end

/-- A successful `finishCandidate` stamps the record's `class` property
with exactly the truthiness-filtered current class. -/
theorem finishCandidate_className {fn : Node} {name : String} {arr : Bool}
    {cc : Option String} {anc : List String} {f : FunctionInfo}
    (h : finishCandidate fn name arr cc anc = .ok (some f)) :
    f.className = truthyOpt cc := by
  simp only [finishCandidate] at h
  split at h
  · exact absurd h (by simp [pure, Except.pure])
  · cases hp : findChildText fn (fun c => c.type == "formal_parameters") with
    | error e => rw [hp] at h; cases e; exact absurd h (by simp [ebind_err])
    | ok params =>
      rw [hp] at h
      simp only [ebind_ok] at h
      cases hc : extractCalledFunctions fn cc with
      | error e => rw [hc] at h; cases e; exact absurd h (by simp [ebind_err])
      | ok calls =>
        rw [hc] at h
        simp only [ebind_ok, pure, Except.pure, Except.ok.injEq,
          Option.some.injEq] at h
        rw [← h]

/-- Lemma `finishCandidate_className` lifted over the name-extraction bind. -/
theorem bind_finishCandidate_className {x : Except Unit String} {fn : Node}
    {arr : Bool} {cc : Option String} {anc : List String} {f : FunctionInfo}
    (h : (x >>= fun name => finishCandidate fn name arr cc anc) = .ok (some f)) :
    f.className = truthyOpt cc := by
  cases x with
  | error e => cases e; exact absurd h (by simp [ebind_err])
  | ok nm =>
    rw [ebind_ok] at h
    exact finishCandidate_className h

/-- A successful record extraction stamps `className` with the
truthiness-filtered current class, whatever the candidate's shape. -/
theorem extractFunctionInfo_className {node : Node} {cc : Option String}
    {anc : List String} {f : FunctionInfo}
    (h : extractFunctionInfo node cc anc = some f) :
    f.className = truthyOpt cc := by
  simp only [extractFunctionInfo] at h
  cases hE : extractFunctionInfoE node cc anc with
  | error e => rw [hE] at h; cases h
  | ok r =>
    rw [hE] at h
    subst h
    revert hE
    simp only [extractFunctionInfoE]
    split
    · exact fun hE => bind_finishCandidate_className hE
    · split
      · exact fun hE => bind_finishCandidate_className hE
      · split
        · split
          · intro hE
            exact absurd hE (by simp [pure, Except.pure])
          · split
            · intro hE
              exact absurd hE (by simp [pure, Except.pure])
            · exact fun hE => bind_finishCandidate_className hE
        · intro hE
          exact absurd hE (by simp [pure, Except.pure])

/-- The per-node `switch` on a non-class node never fails, appends at most
one record, leaves `currentClass` unchanged, and any appended record is
stamped with the truthiness-filtered current class. -/
theorem traverseStep_not_class {node : Node} {anc : List String}
    {fns : List FunctionInfo} {cc : Option String}
    (h : node.type ≠ "class_declaration") :
    ∃ new, traverseStep node anc (fns, cc) = .ok (fns ++ new, cc) ∧
      ∀ r ∈ new, r.className = truthyOpt cc := by
  simp only [traverseStep]
  rw [if_neg h]
  split
  · cases hx : extractFunctionInfo node cc anc with
    | none => exact ⟨[], by simp [pure, Except.pure], by simp⟩
    | some f =>
      refine ⟨[f], by simp [pure, Except.pure], ?_⟩
      intro r hr
      rw [List.mem_singleton] at hr
      subst hr
      exact extractFunctionInfo_className hx
  · exact ⟨[], by simp [pure, Except.pure], by simp⟩

/-- One-step unfolding of `traverse` on a constructor. -/
theorem traverse_unfold (t s : String) (fld : Option String) (cs : List Node)
    (anc : List String) (st : TravState) :
    traverse (.mk t s fld cs) anc st =
      (traverseStep (.mk t s fld cs) anc st) >>= (fun st1 =>
        (traverseList cs (t :: anc) st1) >>= (fun st2 =>
          if t = "class_declaration" then pure (st2.1, none) else pure st2)) := rfl

/-- The walker `traverse` on a class-free subtree never fails, only appends records,
leaves `currentClass` unchanged, and stamps every appended record with
the truthiness-filtered current class. -/
theorem traverse_classFree :
    ∀ node : Node, classFree node = true → ∀ anc fns cc,
      ∃ new, traverse node anc (fns, cc) = .ok (fns ++ new, cc) ∧
        ∀ r ∈ new, r.className = truthyOpt cc := by
  intro node
  induction node using Node.induct with
  | h t s fld cs ih =>
    intro hfree anc fns cc
    simp only [classFree, Bool.and_eq_true, Bool.not_eq_true', beq_eq_false_iff_ne,
      ne_eq] at hfree
    obtain ⟨ht, hcs⟩ := hfree
    have listpart : ∀ cs' : List Node,
        (∀ c ∈ cs', classFree c = true → ∀ anc' fns' cc',
          ∃ new, traverse c anc' (fns', cc') = .ok (fns' ++ new, cc') ∧
            ∀ r ∈ new, r.className = truthyOpt cc') →
        classFreeList cs' = true → ∀ anc' fns' cc',
          ∃ new, traverseList cs' anc' (fns', cc') = .ok (fns' ++ new, cc') ∧
            ∀ r ∈ new, r.className = truthyOpt cc' := by
      intro cs' hcs'
      induction cs' with
      | nil => intro _ anc' fns' cc'; exact ⟨[], by simp [traverseList]; rfl, by simp⟩
      | cons c rest iih =>
        intro hfree' anc' fns' cc'
        simp only [classFreeList, Bool.and_eq_true] at hfree'
        obtain ⟨hc, hrest⟩ := hfree'
        obtain ⟨new1, hrun1, hcls1⟩ :=
          hcs' c (List.mem_cons_self _ _) hc anc' fns' cc'
        obtain ⟨new2, hrun2, hcls2⟩ :=
          iih (fun c' hc' => hcs' c' (List.mem_cons_of_mem _ hc')) hrest
            anc' (fns' ++ new1) cc'
        refine ⟨new1 ++ new2, ?_, ?_⟩
        · simp only [traverseList, hrun1, ebind_ok, hrun2, List.append_assoc]
        · intro r hr
          rcases List.mem_append.mp hr with hr | hr
          · exact hcls1 r hr
          · exact hcls2 r hr
    have hstep := @traverseStep_not_class (.mk t s fld cs) anc fns cc
      (by simpa using ht)
    obtain ⟨new0, hrun0, hcls0⟩ := hstep
    obtain ⟨new1, hrun1, hcls1⟩ := listpart cs ih hcs (t :: anc) (fns ++ new0) cc
    refine ⟨new0 ++ new1, ?_, ?_⟩
    · rw [traverse_unfold]
      simp only [hrun0, ebind_ok, hrun1]
      rw [if_neg (by simpa using ht)]
      simp [List.append_assoc, pure, Except.pure]
    · intro r hr
      rcases List.mem_append.mp hr with hr | hr
      · exact hcls0 r hr
      · exact hcls1 r hr

/-- Folding `traverseList` over class-free children: never fails, appends only
records stamped with the truthiness-filtered current class, and leaves
`currentClass` unchanged. -/
theorem traverseList_classFree (cs : List Node) (h : classFreeList cs = true) :
    ∀ anc fns cc, ∃ new, traverseList cs anc (fns, cc) = .ok (fns ++ new, cc) ∧
      ∀ r ∈ new, r.className = truthyOpt cc := by
  induction cs with
  | nil => intro anc fns cc; exact ⟨[], by simp [traverseList]; rfl, by simp⟩
  | cons c rest iih =>
    intro anc fns cc
    simp only [classFreeList, Bool.and_eq_true] at h
    obtain ⟨hc, hrest⟩ := h
    obtain ⟨new1, hrun1, hcls1⟩ := traverse_classFree c hc anc fns cc
    obtain ⟨new2, hrun2, hcls2⟩ := iih hrest anc (fns ++ new1) cc
    refine ⟨new1 ++ new2, ?_, ?_⟩
    · simp only [traverseList, hrun1, ebind_ok, hrun2, List.append_assoc]
    · intro r hr
      rcases List.mem_append.mp hr with hr | hr
      · exact hcls1 r hr
      · exact hcls2 r hr

/-- C5 (amended): class scoping as the code implements it. (i) Over any
class-free subtree, `traverse` leaves the tracked class unchanged and
stamps every emitted record with the truthiness-filtered current class —
in particular, with `currentClass = none` (a function outside every
class) no emitted record carries a `class` property. (ii) On a
`class_declaration` node with identifier text `cn ≠ ""` whose subtree
contains no further class declaration, every record emitted inside it
carries `class = cn`, and the tracked class is reset to absent (`none`,
not the previous value) once the class's subtree traversal completes. -/
theorem class_scoping :
    (∀ node : Node, classFree node = true → ∀ ancestors fns cc,
      ∃ new, traverse node ancestors (fns, cc) = .ok (fns ++ new, cc) ∧
        ∀ r ∈ new, r.className = truthyOpt cc)
    ∧ (∀ s : String, ∀ fld : Option String, ∀ cs : List Node, ∀ cNode : Node,
        findChild (.mk "class_declaration" s fld cs)
          (fun c => c.type == "identifier") = some cNode →
        cNode.text ≠ "" → classFreeList cs = true →
        ∀ ancestors fns cc,
          ∃ new, traverse (.mk "class_declaration" s fld cs) ancestors (fns, cc) =
              .ok (fns ++ new, none) ∧
            ∀ r ∈ new, r.className = some cNode.text) := by
  refine ⟨traverse_classFree, ?_⟩
  intro s fld cs cNode hfind hcn hfree ancestors fns cc
  have hstep : traverseStep (.mk "class_declaration" s fld cs) ancestors (fns, cc) =
      .ok (fns, some cNode.text) := by
    simp only [traverseStep, Node.type_mk]
    rw [if_pos trivial]
    have : findChildText (.mk "class_declaration" s fld cs)
        (fun c => c.type == "identifier") = .ok cNode.text := by
      simp only [findChildText, findChild] at hfind ⊢
      rw [hfind]
    rw [this]
    simp only [ebind_ok]
    rfl
  obtain ⟨new, hrun, hcls⟩ :=
    traverseList_classFree cs hfree ("class_declaration" :: ancestors)
      fns (some cNode.text)
  refine ⟨new, ?_, ?_⟩
  · rw [traverse_unfold]
    simp only [hstep, ebind_ok, hrun, ebind_ok]
    rw [if_pos trivial]
    rfl
  · intro r hr
    have := hcls r hr
    simpa [truthyOpt, hcn] using this

/-- C5 (counterexample): on `class C { m() { class D {} } n() {} }` the
method `n` — lexically a method of class `C` — is emitted WITHOUT a
`class` property: the inner class `D`'s subtree exit reset `currentClass`
to `null` instead of restoring `C`. -/
theorem class_scoping_counterexample :
    analyzeFunctions nestedClassTree = .ok [
      { name := "m", parameters := "()", returnType := "void",
        className := some "C", call := none },
      { name := "n", parameters := "()", returnType := "void",
        className := none, call := none }] := rfl

/-- Children of the CST node of `class A { m() {} }` (no nested class). -/
def simpleClassChildren : List Node :=
  [nd "class" "class" [],
   fd "identifier" "A" "name" [],
   fd "class_body" "{ m() {} }" "body" [
     nd "\x7b" "\x7b" [],
     nd "method_definition" "m() {}" [
       fd "property_identifier" "m" "name" [],
       fd "formal_parameters" "()" "parameters" [nd "(" "(" [], nd ")" ")" []],
       fd "statement_block" "{}" "body" [nd "\x7b" "\x7b" [], nd "\x7d" "\x7d" []]
     ],
     nd "\x7d" "\x7d" []
   ]]

/-- CST of `class A { m() {} }`. -/
def simpleClassTree : Node :=
  .mk "class_declaration" "class A { m() {} }" none simpleClassChildren

/-- Witness for C5's amended theorem: the class-free `aliasTree` emits
records without a `class` property under `currentClass = none`, and the
nested-class-free `simpleClassTree` emits records stamped `class = "A"`
and resets the tracked class to absent. -/
theorem class_scoping_witness :
    (∃ new, traverse aliasTree ["program"] ([], none) = .ok ([] ++ new, none) ∧
      ∀ r ∈ new, r.className = truthyOpt none) ∧
    (∃ new, traverse simpleClassTree ["program"] ([], none) = .ok ([] ++ new, none) ∧
      ∀ r ∈ new, r.className = some (fd "identifier" "A" "name" []).text) :=
  ⟨class_scoping.1 aliasTree rfl ["program"] [] none,
    class_scoping.2 "class A { m() {} }" none simpleClassChildren
      (fd "identifier" "A" "name" []) rfl (by simp [fd]) rfl ["program"] [] none⟩

mutual
/-- Every `class_declaration` node in the subtree carries an `identifier`
child — the shape the grammar guarantees for well-formed input. -/
def classesNamed : Node → Bool
  | n@(.mk t _ _ cs) =>
    (!(t == "class_declaration") ||
      (findChild n (fun c => c.type == "identifier")).isSome)
    && classesNamedList cs

/-- Conjunction of `classesNamed` over every member of a list. -/
def classesNamedList : List Node → Bool
  | [] => true
  | c :: rest => classesNamed c && classesNamedList rest
end

/-- The per-node `switch` can only fail on a `class_declaration` without
an `identifier` child. -/
theorem traverseStep_total {node : Node} {anc : List String} {st : TravState}
    (h : node.type = "class_declaration" →
      (findChild node (fun c => c.type == "identifier")).isSome) :
    ∃ st', traverseStep node anc st = .ok st' := by
  obtain ⟨fns, cc⟩ := st
  simp only [traverseStep]
  split
  · rename_i hc
    obtain ⟨cNode, hcNode⟩ := Option.isSome_iff_exists.mp (h hc)
    have : findChildText node (fun c => c.type == "identifier") = .ok cNode.text := by
      simp only [findChildText, findChild] at hcNode ⊢
      rw [hcNode]
    rw [this]
    exact ⟨(fns, some cNode.text), rfl⟩
  · split
    · split
      · exact ⟨_, rfl⟩
      · exact ⟨_, rfl⟩
    · exact ⟨_, rfl⟩

/-- The walker `traverse` never fails on a tree whose class declarations all carry
an identifier child. -/
theorem traverse_total :
    ∀ node : Node, classesNamed node = true → ∀ anc st,
      ∃ st', traverse node anc st = .ok st' := by
  intro node
  induction node using Node.induct with
  | h t s fld cs ih =>
    intro hnamed anc st
    simp only [classesNamed, Bool.and_eq_true] at hnamed
    obtain ⟨ht, hcs⟩ := hnamed
    have listpart : ∀ cs' : List Node,
        (∀ c ∈ cs', classesNamed c = true → ∀ anc' st',
          ∃ st'', traverse c anc' st' = .ok st'') →
        classesNamedList cs' = true → ∀ anc' st',
          ∃ st'', traverseList cs' anc' st' = .ok st'' := by
      intro cs' hcs'
      induction cs' with
      | nil => intro _ anc' st'; exact ⟨st', rfl⟩
      | cons c rest iih =>
        intro hfree' anc' st'
        simp only [classesNamedList, Bool.and_eq_true] at hfree'
        obtain ⟨hc, hrest⟩ := hfree'
        obtain ⟨st1, hrun1⟩ := hcs' c (List.mem_cons_self _ _) hc anc' st'
        obtain ⟨st2, hrun2⟩ :=
          iih (fun c' hc' => hcs' c' (List.mem_cons_of_mem _ hc')) hrest anc' st1
        exact ⟨st2, by simp only [traverseList, hrun1, ebind_ok, hrun2]⟩
    have hstep : ∃ st1, traverseStep (.mk t s fld cs) anc st = .ok st1 := by
      apply traverseStep_total
      intro hclass
      simp only [Node.type_mk] at hclass
      have : (!(t == "class_declaration") ||
          (findChild (.mk t s fld cs) (fun c => c.type == "identifier")).isSome) = true := ht
      rw [hclass] at this
      simpa using this
    obtain ⟨st1, hrun1⟩ := hstep
    obtain ⟨st2, hrun2⟩ := listpart cs ih hcs (t :: anc) st1
    refine ⟨if t = "class_declaration" then (st2.1, none) else st2, ?_⟩
    rw [traverse_unfold]
    simp only [hrun1, ebind_ok, hrun2, ebind_ok]
    split <;> rfl

/-- C7 (amended): crash freedom as the code implements it. A throw inside
the `try` body of `extractFunctionInfo` is caught and only drops the one
candidate (`null`, no record), and `analyzeFunctions` returns normally on
every tree whose `class_declaration` nodes all carry an `identifier`
child. (The unguarded `.find(...).text` on a class with no identifier
child — outside the `try` — is the one reachable uncaught throw, shown by
the counterexample.) -/
theorem crash_freedom :
    (∀ node className ancestors,
      extractFunctionInfoE node className ancestors = .error () →
      extractFunctionInfo node className ancestors = none)
    ∧ (∀ node : Node, classesNamed node = true →
        ∃ rs, analyzeFunctions node = .ok rs) := by
  constructor
  · intro node className ancestors hE
    simp only [extractFunctionInfo, hE]
  · intro node hnamed
    obtain ⟨⟨fns, cc⟩, hrun⟩ := traverse_total node hnamed [] ([], none)
    exact ⟨fns, by simp only [analyzeFunctions, hrun, ebind_ok]; rfl⟩

/-- C7 (counterexample): a `class_declaration` node with no `identifier`
child makes the whole `analyzeFunctions` run throw — the class-name
lookup in `traverse` is outside every `try`. -/
theorem crash_freedom_counterexample :
    analyzeFunctions namelessClassTree = .error () := rfl

/-- Witness for C7's amended theorem at the scenario tree, plus the
caught-throw half at the unparenthesised-arrow tree. -/
theorem crash_freedom_witness :
    extractFunctionInfo unparenArrowTree none ["program"] = none ∧
    ∃ rs, analyzeFunctions scenarioTree = .ok rs :=
  ⟨crash_freedom.1 unparenArrowTree none ["program"] rfl,
   crash_freedom.2 scenarioTree rfl⟩
